import Mathlib

/-!
Verification model of the scraplirs screen-scraping client library.

Bytes are modelled as `Nat` (values of Rust `u8`; no arithmetic is performed
on them, only equality tests, so no wrap-around modelling is needed), byte
slices as `List Nat`, and compiled regexes as opaque byte-predicates
`List Nat → Bool` supplied as parameters.  Fallible / panicking Rust code is
modelled with `Option` / `Except`.  Blocking loops that poll the transport are
modelled by structural recursion over the scripted list of chunks the
transport yields; exhausting the script corresponds to the wall-clock
deadline passing.
-/

namespace Scraplirs

/-- A byte, i.e. Rust `u8`.  Only equality is used. -/
abbrev Byte := Nat

/-- A chunk of bytes (Rust `Vec<u8>` / `&[u8]`). -/
abbrev Bytes := List Byte

/-- A compiled regex, abstracted to its matching behaviour on a byte slice. -/
abbrev Pattern := Bytes → Bool

/-- The linefeed byte `NEW_LINE_BYTE` from `channel/constants.rs`. -/
def NEW_LINE_BYTE : Byte := 0x0a

/-- `PASSWORD_SEEN_MAX` from `channel/constants.rs`. -/
def PASSWORD_SEEN_MAX : Nat := 2

/-- `USER_SEEN_MAX` from `channel/constants.rs`. -/
def USER_SEEN_MAX : Nat := 2

/-- `PASSPHRASE_SEEN_MAX` from `channel/constants.rs`. -/
def PASSPHRASE_SEEN_MAX : Nat := 2

/-! ## `util/bytes.rs` -/

/-- `is_sub(haystack, needle)` from `util/bytes.rs`: true when `needle`
occurs *contiguously* in `haystack` (empty needle always matches); the Rust
loop repeatedly tests `starts_with` and drops the head of the haystack. -/
def is_sub (haystack needle : Bytes) : Bool :=
  if needle.isEmpty then
    true
  else
    match haystack with
    | [] => false
    | _ :: rest => if needle.isPrefixOf haystack then true else is_sub rest needle

/-- `roughly_contains_iter_output_for_input_char` from `util/bytes.rs`:
scan `output` for the first occurrence of `input_char`; on a hit the Rust
function returns `(true, output[idx+1..])`, modelled as `some rest`, and
after an unsuccessful scan it returns `(false, output)`, modelled as
`none`. -/
def roughly_contains_iter_output_for_input_char (input_char : Byte) :
    Bytes → Option Bytes
  | [] => none
  | output_char :: rest =>
    if input_char = output_char then some rest
    else roughly_contains_iter_output_for_input_char input_char rest

/-- The `for input_char in input` loop of `roughly_contains`.  Note the Rust
code executes `continue` on a hit *without* storing the returned remainder
into `iter_output`, so every character is searched in the same slice. -/
def roughly_contains_loop : Bytes → Bytes → Bool
  | [], _ => true
  | input_char :: rest, iter_output =>
    match roughly_contains_iter_output_for_input_char input_char iter_output with
    | some _ => roughly_contains_loop rest iter_output
    | none => false

/-- `roughly_contains(input, output)` from `util/bytes.rs`. -/
def roughly_contains (input output : Bytes) : Bool :=
  if is_sub input output then true
  else if output.length < input.length then false
  else roughly_contains_loop input output

/-- Specification-side predicate: `needle` is a not-necessarily-contiguous
subsequence of `haystack` (there is a strictly increasing sequence of indices
into `haystack` whose bytes, in order, equal `needle`). -/
def isSubseq : Bytes → Bytes → Bool
  | [], _ => true
  | _ :: _, [] => false
  | n :: ns, h :: hs => if n = h then isSubseq ns hs else isSubseq (n :: ns) hs

/-- `char_in_cutset` from `util/bytes.rs`. -/
def char_in_cutset (b : Byte) : Bytes → Bool
  | [] => false
  | cut_b :: rest => if b = cut_b then true else char_in_cutset b rest

/-- `trim_cutset_left(b, cutset)` from `util/bytes.rs`: slice from the first
position whose byte is outside the cutset (`position` + `get(from..)`), or
the empty slice when no such position exists. -/
def trim_cutset_left (b cutset : Bytes) : Bytes :=
  b.dropWhile (fun x => char_in_cutset x cutset)

/-- `trim_cutset_right(b, cutset)` from `util/bytes.rs`: slice up to and
including the last position whose byte is outside the cutset (`rposition` +
`get(..=to)`).  When every byte of `b` is in the cutset (in particular when
`b` is empty) the `rposition` result is `None` and the `expect` panics,
modelled as `none`. -/
def trim_cutset_right (b cutset : Bytes) : Option Bytes :=
  if (b.reverse.dropWhile (fun x => char_in_cutset x cutset)).isEmpty then none
  else some (b.reverse.dropWhile (fun x => char_in_cutset x cutset)).reverse

/-- `trim_cutset(b, cutset)` from `util/bytes.rs`: `position` of the first
byte outside the cutset (returning the empty slice if none), then
`rposition` of the last such byte, then the slice `b[from..=to]`. -/
def trim_cutset (b cutset : Bytes) : Bytes :=
  if (b.dropWhile (fun x => char_in_cutset x cutset)).isEmpty then []
  else ((b.dropWhile (fun x => char_in_cutset x cutset)).reverse.dropWhile
    (fun x => char_in_cutset x cutset)).reverse

end Scraplirs

namespace Scraplirs

/-! ## Claim C1 -/

/-- C1: `roughly_contains(needle, haystack)` is claimed to be true iff
`needle` is a not-necessarily-contiguous subsequence of `haystack`.  The code
violates this: for `needle = "ba"` and `haystack = "ab"` it returns `true`
although no strictly increasing sequence of indices of `"ab"` spells `"ba"`,
because the loop never advances `iter_output` after a matched character. -/
theorem C1_roughly_contains_order_lost :
    roughly_contains [98, 97] [97, 98] = true ∧ isSubseq [98, 97] [97, 98] = false := by
  decide

/-! ## Claim C8 -/

/-- Dropping a prefix whose elements all satisfy `p` is absorbed by
`dropWhile p`. -/
theorem dropWhile_append_all {α : Type} {p : α → Bool} {u : List α}
    (hu : ∀ x ∈ u, p x = true) (v : List α) :
    (u ++ v).dropWhile p = v.dropWhile p := by
  induction u with
  | nil => rfl
  | cons x xs ih =>
    have hx : p x = true := hu x (List.mem_cons_self x xs)
    have hxs : ∀ y ∈ xs, p y = true := fun y hy => hu y (List.mem_cons_of_mem x hy)
    simp [List.dropWhile_cons, hx, ih hxs]

/-- C8 counterexample: the claim asserts `trim_cutset_right` is defined for
every input, but on a slice lying entirely in the cutset the `rposition`
`expect` panics (modelled as `none`). -/
theorem C8_trim_cutset_right_panics :
    trim_cutset_right [10] [10] = none := by decide

/-- If `dropWhile` produces a cons, its head falsifies the predicate. -/
theorem dropWhile_head_false {α : Type} {p : α → Bool} {x : α} {xs : List α} :
    ∀ {l : List α}, l.dropWhile p = x :: xs → p x = false := by
  intro l
  induction l with
  | nil => intro h; simp [List.dropWhile] at h
  | cons a as ih =>
    intro h
    by_cases ha : p a = true
    · rw [List.dropWhile_cons_of_pos ha] at h
      exact ih h
    · rw [List.dropWhile_cons_of_neg ha] at h
      cases h
      exact Bool.eq_false_iff.mpr ha

/-- Every list with an element outside `p` splits as an all-`p` prefix, a
middle whose first and last elements falsify `p`, and an all-`p` suffix. -/
theorem trim_split {α : Type} (p : α → Bool) (b : List α)
    (hx : ∃ x ∈ b, p x = false) :
    ∃ pre mid post,
      b = pre ++ mid ++ post ∧
      pre = b.takeWhile p ∧
      mid ++ post = b.dropWhile p ∧
      mid = ((b.dropWhile p).reverse.dropWhile p).reverse ∧
      (∀ y ∈ pre, p y = true) ∧ (∀ y ∈ post, p y = true) ∧
      (∃ mh mt, mid = mh :: mt ∧ p mh = false) ∧
      (∃ ml mi, mid = mi ++ [ml] ∧ p ml = false) := by
  obtain ⟨x, hxb, hxc⟩ := hx
  have hbsplit : b.takeWhile p ++ b.dropWhile p = b := List.takeWhile_append_dropWhile p b
  have hlne : b.dropWhile p ≠ [] := by
    intro hnil
    rw [List.dropWhile_eq_nil_iff] at hnil
    rw [hnil x hxb] at hxc
    exact absurd hxc (by simp)
  obtain ⟨lh, lt, hlcons⟩ := List.exists_cons_of_ne_nil hlne
  have hlh : p lh = false := dropWhile_head_false hlcons
  have hwsplit :
      (b.dropWhile p).reverse.takeWhile p ++ (b.dropWhile p).reverse.dropWhile p =
        (b.dropWhile p).reverse := List.takeWhile_append_dropWhile p _
  have hwne : (b.dropWhile p).reverse.dropWhile p ≠ [] := by
    intro hnil
    rw [List.dropWhile_eq_nil_iff] at hnil
    have hlhrev : lh ∈ (b.dropWhile p).reverse := by
      rw [List.mem_reverse, hlcons]; exact List.mem_cons_self _ _
    rw [hnil lh hlhrev] at hlh
    exact absurd hlh (by simp)
  obtain ⟨wh, wt, hwcons⟩ := List.exists_cons_of_ne_nil hwne
  have hwh : p wh = false := dropWhile_head_false hwcons
  have h2 : ((b.dropWhile p).reverse.dropWhile p).reverse ++
      ((b.dropWhile p).reverse.takeWhile p).reverse = b.dropWhile p := by
    rw [← List.reverse_append, hwsplit, List.reverse_reverse]
  have hbdecomp : b = b.takeWhile p ++ ((b.dropWhile p).reverse.dropWhile p).reverse ++
      ((b.dropWhile p).reverse.takeWhile p).reverse := by
    rw [List.append_assoc, h2, hbsplit]
  have hmidne : ((b.dropWhile p).reverse.dropWhile p).reverse ≠ [] := by
    intro hnil
    exact hwne (by simpa using congrArg List.reverse hnil)
  obtain ⟨mh, mt, hmcons⟩ := List.exists_cons_of_ne_nil hmidne
  have hmh : mh = lh := by
    have h3 := h2
    rw [hmcons, hlcons] at h3
    have := congrArg (fun l => l.head?) h3
    simpa using this
  refine ⟨b.takeWhile p, ((b.dropWhile p).reverse.dropWhile p).reverse,
    ((b.dropWhile p).reverse.takeWhile p).reverse, hbdecomp, rfl, h2, rfl,
    fun y hy => List.mem_takeWhile_imp hy, ?_, ⟨mh, mt, hmcons, hmh ▸ hlh⟩,
    ⟨wh, wt.reverse, ?_, hwh⟩⟩
  · intro y hy
    rw [List.mem_reverse] at hy
    exact List.mem_takeWhile_imp hy
  · rw [hwcons]
    simp

/-- C8 (amended): when `b` holds at least one byte outside the cutset,
`trim_cutset_right` is defined, `trim_cutset` is the composition of
`trim_cutset_left` after `trim_cutset_right`, and `b` is reconstructed as
the trimmed-left bytes, the middle, and the trimmed-right bytes, all trimmed
bytes lying in the cutset.  When every byte of `b` lies in the cutset,
`trim_cutset` returns the empty slice while `trim_cutset_right` panics. -/
theorem C8_trim_cutset_decomposition (b c : Bytes) :
    ((∃ x ∈ b, char_in_cutset x c = false) →
      ∃ r, trim_cutset_right b c = some r ∧
        trim_cutset b c = trim_cutset_left r c ∧
        ∃ pre post, b = pre ++ trim_cutset b c ++ post ∧
          (∀ x ∈ pre, char_in_cutset x c = true) ∧
          (∀ x ∈ post, char_in_cutset x c = true)) ∧
    ((∀ x ∈ b, char_in_cutset x c = true) →
      trim_cutset b c = [] ∧ trim_cutset_right b c = none) := by
  constructor
  · intro hx
    obtain ⟨pre, mid, post, hb, hpre, hmp, hmid, hpreall, hpostall,
      ⟨mh, mt, hmcons, hmh⟩, ⟨ml, mi, hmlast, hml⟩⟩ :=
      trim_split (fun y => char_in_cutset y c) b hx
    have hpostrev : ∀ y ∈ post.reverse, char_in_cutset y c = true := by
      intro y hy
      rw [List.mem_reverse] at hy
      exact hpostall y hy
    have htrim : trim_cutset b c = mid := by
      rw [trim_cutset]
      have hne : (b.dropWhile fun y => char_in_cutset y c).isEmpty = false := by
        rw [← hmp, hmcons]; rfl
      rw [hne]
      simp only [Bool.false_eq_true, if_false]
      exact hmid.symm
    have hdropr : b.reverse.dropWhile (fun y => char_in_cutset y c) =
        mid.reverse ++ pre.reverse := by
      rw [hb, List.reverse_append, List.reverse_append,
        dropWhile_append_all hpostrev, hmlast]
      simp only [List.reverse_append, List.reverse_cons, List.reverse_nil,
        List.nil_append, List.cons_append, List.append_assoc]
      rw [List.dropWhile_cons_of_neg (by simp [hml])]
    have hright : trim_cutset_right b c = some (pre ++ mid) := by
      rw [trim_cutset_right, hdropr]
      have hne : (mid.reverse ++ pre.reverse).isEmpty = false := by
        rw [hmcons]; simp
      rw [hne]
      simp only [Bool.false_eq_true, if_false, List.reverse_append,
        List.reverse_reverse]
    have hleft : trim_cutset_left (pre ++ mid) c = mid := by
      rw [trim_cutset_left, dropWhile_append_all hpreall, hmcons,
        List.dropWhile_cons_of_neg (by simp [hmh])]
    exact ⟨pre ++ mid, hright, by rw [htrim, hleft], pre, post,
      by rw [htrim]; exact hb, hpreall, hpostall⟩
  · intro hall
    have hnil : b.dropWhile (fun y => char_in_cutset y c) = [] :=
      List.dropWhile_eq_nil_iff.mpr hall
    have hnilrev : b.reverse.dropWhile (fun y => char_in_cutset y c) = [] := by
      rw [List.dropWhile_eq_nil_iff]
      intro y hy
      exact hall y (List.mem_reverse.mp hy)
    constructor
    · rw [trim_cutset, hnil]
      rfl
    · rw [trim_cutset_right, hnilrev]
      rfl

/-- C8 witness: the amended theorem applied to the concrete slice
`[10, 65, 10]` with cutset `[10]`, and to the all-cutset slice `[10]`. -/
theorem C8_witness_trim_cutset_decomposition :
    (∃ r, trim_cutset_right [10, 65, 10] [10] = some r ∧
      trim_cutset [10, 65, 10] [10] = trim_cutset_left r [10] ∧
      ∃ pre post, [10, 65, 10] = pre ++ trim_cutset [10, 65, 10] [10] ++ post ∧
        (∀ x ∈ pre, char_in_cutset x [10] = true) ∧
        (∀ x ∈ post, char_in_cutset x [10] = true)) ∧
    (trim_cutset [10] [10] = [] ∧ trim_cutset_right [10] [10] = none) :=
  ⟨(C8_trim_cutset_decomposition [10, 65, 10] [10]).1 ⟨65, by decide, by decide⟩,
   (C8_trim_cutset_decomposition [10] [10]).2 (by decide)⟩

/-! ## `util/queue.rs`

The `RwLock` only serialises access and the model is single-threaded, so the
lock is elided.  `depth` is a Rust `u32`: the `+= 1` in `enqueue`/`requeue`
wraps at `2^32` in release builds (debug builds panic there instead, so
either way the counter does not keep counting), modelled with an explicit
`% 2^32`; the `-= 1` in `dequeue` runs only behind the `depth == 0` guard
and cannot underflow. -/

/-- `2^32`, the modulus of the `u32` depth counter. -/
def U32_MOD : Nat := 4294967296

/-- The byte-chunk queue from `util/queue.rs`. -/
structure Queue where
  queue : List Bytes
  depth : Nat
  deriving DecidableEq, Repr

/-- `Queue::new`. -/
def Queue.new : Queue := ⟨[], 0⟩

/-- `Queue::requeue`: push to the *front*, bump the `u32` depth. -/
def Queue.requeue (s : Queue) (b : Bytes) : Queue :=
  ⟨b :: s.queue, (s.depth + 1) % U32_MOD⟩

/-- `Queue::enqueue`: push to the *back*, bump the `u32` depth. -/
def Queue.enqueue (s : Queue) (b : Bytes) : Queue :=
  ⟨s.queue ++ [b], (s.depth + 1) % U32_MOD⟩

/-- `Queue::dequeue`: an empty chunk when `depth == 0`, otherwise
`pop_front` (whose `expect` panics -- `none` -- should the deque be empty
while `depth` is not, which is unreachable from `Queue::new`). -/
def Queue.dequeue (s : Queue) : Option (Bytes × Queue) :=
  if s.depth = 0 then some ([], s)
  else
    match s.queue with
    | [] => none
    | b :: rest => some (b, ⟨rest, s.depth - 1⟩)

/-- `Queue::get_depth`. -/
def Queue.get_depth (s : Queue) : Nat := s.depth

/-- Enqueue a list of chunks in order. -/
def enqueueAll (s : Queue) (bs : List Bytes) : Queue :=
  bs.foldl Queue.enqueue s

/-- Dequeue `n` chunks, propagating the unreachable-panic case. -/
def dequeueMany : Queue → Nat → Option (List Bytes × Queue)
  | s, 0 => some ([], s)
  | s, n + 1 =>
    match s.dequeue with
    | none => none
    | some (b, s1) =>
      match dequeueMany s1 n with
      | none => none
      | some (bs, s2) => some (b :: bs, s2)

/-- A queue operation issued by a client. -/
inductive QueueOp where
  | enq (b : Bytes)
  | req (b : Bytes)
  | deq
  deriving DecidableEq, Repr

/-- Run a list of operations from a state; the `Nat` counts the dequeue
calls that actually popped a chunk (those finding non-zero depth). -/
def runOps : Queue → List QueueOp → Option (Queue × Nat)
  | s, [] => some (s, 0)
  | s, QueueOp.enq b :: rest => runOps (s.enqueue b) rest
  | s, QueueOp.req b :: rest => runOps (s.requeue b) rest
  | s, QueueOp.deq :: rest =>
    match s.dequeue with
    | none => none
    | some (_, s1) =>
      match runOps s1 rest with
      | none => none
      | some (sf, n) => some (sf, n + (if s.depth = 0 then 0 else 1))

/-- Number of `enq` operations. -/
def countEnq : List QueueOp → Nat
  | [] => 0
  | QueueOp.enq _ :: rest => countEnq rest + 1
  | _ :: rest => countEnq rest

/-- Number of `req` operations. -/
def countReq : List QueueOp → Nat
  | [] => 0
  | QueueOp.req _ :: rest => countReq rest + 1
  | _ :: rest => countReq rest

theorem enqueueAll_from (bs : List Bytes) :
    ∀ q : List Bytes, q.length + bs.length < U32_MOD →
      enqueueAll ⟨q, q.length⟩ bs = ⟨q ++ bs, (q ++ bs).length⟩ := by
  induction bs with
  | nil => intro q _; simp [enqueueAll]
  | cons b rest ih =>
    intro q hlt
    rw [List.length_cons] at hlt
    show enqueueAll (Queue.enqueue ⟨q, q.length⟩ b) rest = _
    have hq1 : q.length + 1 < U32_MOD := by omega
    have h1 : Queue.enqueue ⟨q, q.length⟩ b = ⟨q ++ [b], (q ++ [b]).length⟩ := by
      simp [Queue.enqueue, Nat.mod_eq_of_lt hq1]
    have h2 : (q ++ [b]).length + rest.length < U32_MOD := by
      rw [List.length_append, List.length_singleton]
      omega
    rw [h1, ih (q ++ [b]) h2]
    simp

theorem dequeueMany_full (l : List Bytes) :
    dequeueMany ⟨l, l.length⟩ l.length = some (l, Queue.new) := by
  induction l with
  | nil => rfl
  | cons b rest ih =>
    show dequeueMany ⟨b :: rest, rest.length + 1⟩ (rest.length + 1) = _
    have h1 : Queue.dequeue ⟨b :: rest, rest.length + 1⟩ =
        some (b, ⟨rest, rest.length⟩) := by
      simp [Queue.dequeue]
    simp [dequeueMany, h1, ih]

theorem runOps_accounting (ops : List QueueOp) :
    ∀ s : Queue, s.depth = s.queue.length % U32_MOD →
      ∃ sf n, runOps s ops = some (sf, n) ∧
        sf.depth = sf.queue.length % U32_MOD ∧
        sf.queue.length + n = s.queue.length + countEnq ops + countReq ops := by
  induction ops with
  | nil =>
    intro s hs
    exact ⟨s, 0, rfl, hs, by simp [countEnq, countReq]⟩
  | cons op rest ih =>
    intro s hs
    cases op with
    | enq b =>
      have hinv : (s.enqueue b).depth = (s.enqueue b).queue.length % U32_MOD := by
        show (s.depth + 1) % U32_MOD = (s.queue ++ [b]).length % U32_MOD
        rw [hs, Nat.mod_add_mod, List.length_append, List.length_singleton]
      obtain ⟨sf, n, hrun, hfinv, hsum⟩ := ih (s.enqueue b) hinv
      refine ⟨sf, n, hrun, hfinv, ?_⟩
      have hq : (s.enqueue b).queue.length = s.queue.length + 1 := by
        simp [Queue.enqueue]
      have hE : countEnq (QueueOp.enq b :: rest) = countEnq rest + 1 := rfl
      have hR : countReq (QueueOp.enq b :: rest) = countReq rest := rfl
      omega
    | req b =>
      have hinv : (s.requeue b).depth = (s.requeue b).queue.length % U32_MOD := by
        show (s.depth + 1) % U32_MOD = (b :: s.queue).length % U32_MOD
        rw [hs, Nat.mod_add_mod, List.length_cons]
      obtain ⟨sf, n, hrun, hfinv, hsum⟩ := ih (s.requeue b) hinv
      refine ⟨sf, n, hrun, hfinv, ?_⟩
      have hq : (s.requeue b).queue.length = s.queue.length + 1 := by
        simp [Queue.requeue]
      have hE : countEnq (QueueOp.req b :: rest) = countEnq rest := rfl
      have hR : countReq (QueueOp.req b :: rest) = countReq rest + 1 := rfl
      omega
    | deq =>
      have hE : countEnq (QueueOp.deq :: rest) = countEnq rest := rfl
      have hR : countReq (QueueOp.deq :: rest) = countReq rest := rfl
      by_cases hz : s.depth = 0
      · have hdq : s.dequeue = some ([], s) := by simp [Queue.dequeue, hz]
        obtain ⟨sf, n, hrun, hfinv, hsum⟩ := ih s hs
        refine ⟨sf, n, ?_, hfinv, ?_⟩
        · show runOps s (QueueOp.deq :: rest) = _
          simp [runOps, hdq, hrun, hz]
        · omega
      · have hM : U32_MOD = 4294967296 := rfl
        have hlen : s.queue.length ≠ 0 := by
          intro h0
          rw [h0] at hs
          simp at hs
          exact hz hs
        obtain ⟨bq, qrest, hq⟩ : ∃ bq qrest, s.queue = bq :: qrest := by
          cases hq : s.queue with
          | nil => rw [hq] at hlen; simp at hlen
          | cons bq qrest => exact ⟨bq, qrest, rfl⟩
        have hdq : s.dequeue = some (bq, ⟨qrest, s.depth - 1⟩) := by
          simp [Queue.dequeue, hz, hq]
        have hinv : (Queue.mk qrest (s.depth - 1)).depth =
            (Queue.mk qrest (s.depth - 1)).queue.length % U32_MOD := by
          show s.depth - 1 = qrest.length % U32_MOD
          have hs2 : s.depth = (qrest.length + 1) % U32_MOD := by
            rw [hs, hq, List.length_cons]
          rw [hM] at hs2 ⊢
          omega
        obtain ⟨sf, n, hrun, hfinv, hsum⟩ := ih ⟨qrest, s.depth - 1⟩ hinv
        have hsum2 : sf.queue.length + n =
            qrest.length + countEnq rest + countReq rest := hsum
        refine ⟨sf, n + 1, ?_, hfinv, ?_⟩
        · show runOps s (QueueOp.deq :: rest) = _
          simp [runOps, hdq, hrun, hz]
        · have hq2 : s.queue.length = qrest.length + 1 := by
            rw [hq, List.length_cons]
          omega

/-! ## Claim C9 -/

theorem countEnq_replicate (n : Nat) :
    countEnq (List.replicate n (QueueOp.enq [])) = n := by
  induction n with
  | zero => rfl
  | succ n ih => rw [List.replicate_succ]; show countEnq _ + 1 = n + 1; rw [ih]

theorem countReq_replicate (n : Nat) :
    countReq (List.replicate n (QueueOp.enq [])) = 0 := by
  induction n with
  | zero => rfl
  | succ n ih => rw [List.replicate_succ]; exact ih

theorem runOps_enq_replicate (n : Nat) :
    ∀ (q : List Bytes) (d : Nat),
      runOps ⟨q, d % U32_MOD⟩ (List.replicate n (QueueOp.enq [])) =
        some (⟨q ++ List.replicate n ([] : Bytes), (d + n) % U32_MOD⟩, 0) := by
  induction n with
  | zero => intro q d; simp [runOps]
  | succ n ih =>
    intro q d
    rw [List.replicate_succ]
    show runOps (Queue.enqueue ⟨q, d % U32_MOD⟩ []) _ = _
    have h1 : Queue.enqueue ⟨q, d % U32_MOD⟩ [] = ⟨q ++ [[]], (d + 1) % U32_MOD⟩ := by
      simp [Queue.enqueue, Nat.mod_add_mod]
    rw [h1, ih (q ++ [[]]) (d + 1)]
    have harith : d + 1 + n = d + (n + 1) := by omega
    rw [harith, List.append_assoc]
    rfl

/-- C9 counterexample: `depth` is a `u32`, so after `2^32` enqueues it has
wrapped back to `0` while `2^32` enqueues and no requeue or popping dequeue
have happened -- `get_depth` is `0`, not `2^32`, refuting the claim's
unconditional accounting (a debug build would have panicked on the
overflowing `+= 1` instead, with the same refutation). -/
theorem C9_depth_wraps_at_u32 :
    runOps Queue.new (List.replicate U32_MOD (QueueOp.enq [])) =
      some (⟨List.replicate U32_MOD [], 0⟩, 0) ∧
    Queue.get_depth ⟨List.replicate U32_MOD [], 0⟩ = 0 ∧
    countEnq (List.replicate U32_MOD (QueueOp.enq [])) = U32_MOD ∧
    countReq (List.replicate U32_MOD (QueueOp.enq [])) = 0 ∧
    (0 : Nat) ≠ U32_MOD := by
  refine ⟨?_, rfl, countEnq_replicate _, countReq_replicate _, by decide⟩
  have h := runOps_enq_replicate U32_MOD [] 0
  simpa [Queue.new, Nat.mod_self] using h

/-- C9 (amended): the queue is FIFO for `enqueue` when fewer than `2^32`
chunks are enqueued; a `requeue` chunk is returned by the very next
`dequeue` leaving the prior state, provided the depth counter does not hit
the `u32` wrap; `dequeue` at depth zero returns the empty chunk and leaves
the queue unchanged; and `get_depth` equals the number of enqueues plus
requeues minus the popping dequeues *reduced modulo `2^32`* (the resident
chunk count itself, `sf.queue.length`, carries the exact difference). -/
theorem C9_queue_fifo_requeue_depth (bs : List Bytes) (s : Queue) (b : Bytes)
    (ops : List QueueOp) (hbs : bs.length < U32_MOD)
    (hsd : s.depth + 1 < U32_MOD) :
    dequeueMany (enqueueAll Queue.new bs) bs.length = some (bs, Queue.new) ∧
    Queue.dequeue (Queue.requeue s b) = some (b, s) ∧
    (s.depth = 0 → Queue.dequeue s = some ([], s)) ∧
    (∃ sf n, runOps Queue.new ops = some (sf, n) ∧
      sf.queue.length + n = countEnq ops + countReq ops ∧
      Queue.get_depth sf = sf.queue.length % U32_MOD) := by
  refine ⟨?_, ?_, ?_, ?_⟩
  · have h1 : enqueueAll Queue.new bs = ⟨bs, bs.length⟩ := by
      have := enqueueAll_from bs [] (by simpa using hbs)
      simpa [Queue.new] using this
    rw [h1]
    exact dequeueMany_full bs
  · have hr : Queue.requeue s b = ⟨b :: s.queue, s.depth + 1⟩ := by
      simp [Queue.requeue, Nat.mod_eq_of_lt hsd]
    rw [hr]
    simp [Queue.dequeue]
  · intro hz
    simp [Queue.dequeue, hz]
  · obtain ⟨sf, n, hrun, hfinv, hsum⟩ :=
      runOps_accounting ops Queue.new (Nat.zero_mod U32_MOD).symm
    exact ⟨sf, n, hrun, by simpa [Queue.new] using hsum, hfinv⟩

/-- C9 witness: the amended queue properties applied at concrete chunk
lists, states and operation sequences, with both wrap-avoidance hypotheses
discharged. -/
theorem C9_witness_queue :
    dequeueMany (enqueueAll Queue.new [[1], [2]]) 2 = some ([[1], [2]], Queue.new) ∧
    Queue.dequeue (Queue.requeue Queue.new [3]) = some ([3], Queue.new) ∧
    Queue.dequeue Queue.new = some ([], Queue.new) ∧
    (∃ sf n, runOps Queue.new [QueueOp.enq [4], QueueOp.deq, QueueOp.deq] = some (sf, n) ∧
      sf.queue.length + n = countEnq [QueueOp.enq [4], QueueOp.deq, QueueOp.deq] +
        countReq [QueueOp.enq [4], QueueOp.deq, QueueOp.deq] ∧
      Queue.get_depth sf = sf.queue.length % U32_MOD) :=
  have h := C9_queue_fifo_requeue_depth [[1], [2]] Queue.new [3]
    [QueueOp.enq [4], QueueOp.deq, QueueOp.deq] (by decide) (by decide)
  ⟨h.1, h.2.1, h.2.2.1 rfl, h.2.2.2⟩

/-! ## Channel model

The channel configuration keeps the fields the claims exercise; compiled
regexes are abstracted to byte-predicates, and the regex `replace` used by
`process_output` to strip prompts is abstracted to a byte-transformer
parameter.  Scripted transport reads are a list of chunks; the read-until
loops recurse over that list, and running out of chunks models the
wall-clock deadline expiring (the transport yields empty reads forever). -/

/-- The channel arguments from `channel/args.rs` used by the claims. -/
structure ChannelArgs where
  prompt_pattern : Pattern
  return_char : Bytes
  prompt_search_depth : Nat

/-- `process_read_buf` from `channel/read_until.rs`: keep only the trailing
`prompt_search_depth` bytes of a new chunk and, within that window, truncate
to the first linefeed (`position(..).unwrap_or(0)`; the slice is only
shortened when that index is positive). -/
def process_read_buf (args : ChannelArgs) (rb : Bytes) : Bytes :=
  if rb.length ≤ args.prompt_search_depth then rb
  else
    let prb := rb.drop (rb.length - args.prompt_search_depth)
    let partition_index := (prb.findIdx? (fun r => r == NEW_LINE_BYTE)).getD 0
    if partition_index > 0 then prb.drop partition_index else prb

/-- Rust `slice::split` on one separator byte: the separators are removed
and empty segments are kept (an empty slice yields one empty segment). -/
def splitOnByte (sep : Byte) : Bytes → List Bytes
  | [] => [[]]
  | x :: rest =>
    match splitOnByte sep rest with
    | [] => if x == sep then [[], []] else [[x]]
    | cur :: done => if x == sep then [] :: cur :: done else (x :: cur) :: done

/-- The per-line loop of `process_output`: right-trim the linefeed cutset
from each line (panicking -- `none` -- on an all-cutset line, in particular
an empty one) and append one linefeed back. -/
def trimLinesRight : List Bytes → Option (List Bytes)
  | [] => some []
  | line :: rest =>
    match trim_cutset_right line [NEW_LINE_BYTE] with
    | none => none
    | some t =>
      match trimLinesRight rest with
      | none => none
      | some ts => some ((t ++ [NEW_LINE_BYTE]) :: ts)

/-- `Channel::process_output` from `channel/send_input.rs`: split on
linefeeds, right-trim and rejoin each line, optionally strip the prompt
(the regex `replace`, abstracted as `replacePrompt`), then trim linefeed
and return-char bytes from both ends. -/
def process_output (args : ChannelArgs) (replacePrompt : Bytes → Bytes)
    (b : Bytes) (strip_prompt : Bool) : Option Bytes :=
  match trimLinesRight (splitOnByte NEW_LINE_BYTE b) with
  | none => none
  | some clean_lines =>
    let joined_lines := clean_lines.flatten
    let joined := if strip_prompt then replacePrompt joined_lines else joined_lines
    some (trim_cutset joined (NEW_LINE_BYTE :: args.return_char))

/-- How a channel operation can fail in the model. -/
inductive ChannelErr where
  | timeout
  | panicked
  deriving DecidableEq, Repr

/-- Per-call operation options from `channel/operation.rs` (the timeout is
modelled by the chunk script running out). -/
structure OperationOptions where
  strip_prompt : Bool
  eager : Bool
  interim_prompt_patterns : List Pattern
  complete_patterns : List Pattern

/-- The echo-confirmation loop of `send_input_bytes`: pull chunks, extend
the buffer (no windowing in `_read_and_check_for_fuzzy`), and stop once
`roughly_contains(rb, b)` holds; an empty read skips the check. -/
def echoFuzzyLoop (b : Bytes) : List Bytes → Bytes → Option (List Bytes)
  | [], _ => none
  | nb :: rest, rb =>
    if nb.isEmpty then echoFuzzyLoop b rest rb
    else
      let rb2 := rb ++ nb
      if roughly_contains rb2 b then some rest else echoFuzzyLoop b rest rb2

/-- The prompt-waiting loop of `send_input_bytes`: when
`interim_prompt_patterns` is empty the chunk is checked against the
channel's `prompt_pattern` (`_read_and_check_for_prompt`), otherwise
*only* against the interim patterns (`_read_and_check_for_any_prompt` is
called with `options.interim_prompt_patterns` alone). -/
def promptLoop (args : ChannelArgs) (interim : List Pattern) :
    List Bytes → Bytes → Option Bytes
  | [], _ => none
  | nb :: rest, rb =>
    if nb.isEmpty then promptLoop args interim rest rb
    else
      let rb2 := rb ++ process_read_buf args nb
      let found :=
        if interim.isEmpty then args.prompt_pattern rb2
        else interim.any (fun p => p rb2)
      if found then some rb2 else promptLoop args interim rest rb2

/-- `Channel::send_input_bytes` from `channel/send_input.rs` over a
scripted transport: confirm the echo fuzzily, then (unless eager) wait for
a prompt and post-process; exhausting the script is the deadline. -/
def send_input_bytes (args : ChannelArgs) (replacePrompt : Bytes → Bytes)
    (b : Bytes) (options : OperationOptions) (chunks : List Bytes) :
    Except ChannelErr Bytes :=
  match echoFuzzyLoop b chunks [] with
  | none => Except.error ChannelErr.timeout
  | some rest =>
    if options.eager then Except.ok b
    else
      match promptLoop args options.interim_prompt_patterns rest [] with
      | none => Except.error ChannelErr.timeout
      | some rb =>
        match process_output args replacePrompt rb options.strip_prompt with
        | none => Except.error ChannelErr.panicked
        | some out => Except.ok out

/-! ## Claim C3 -/

/-- Channel whose prompt pattern spots the prompt `R1#`. -/
def argsR1 : ChannelArgs :=
  ⟨fun rb => is_sub rb [82, 49, 35], [NEW_LINE_BYTE], 1024⟩

/-- An interim pattern that looks for `XYZ` and matches nothing here. -/
def patternXYZ : Pattern := fun rb => is_sub rb [88, 89, 90]

/-- Options with one interim prompt pattern supplied. -/
def optionsInterim : OperationOptions :=
  ⟨true, false, [patternXYZ], []⟩

/-- C3: the claim says that with `eager` false the operation completes as
soon as the channel's `prompt_pattern` *or* any interim pattern matches.
The code disagrees: when `interim_prompt_patterns` is non-empty only those
patterns are consulted, so a device that echoes the input and then shows
the real prompt `R1#` (matched by `prompt_pattern`, as the second conjunct
evaluates) makes the call spin until the deadline instead of returning. -/
theorem C3_interim_patterns_shadow_prompt :
    send_input_bytes argsR1 id [115] optionsInterim [[115], [82, 49, 35]] =
      Except.error ChannelErr.timeout ∧
    argsR1.prompt_pattern [82, 49, 35] = true := by
  constructor
  · rfl
  · rfl

/-! ## Claim C10 -/

theorem trimLinesRight_none_of_mem_nil :
    ∀ lines : List Bytes, [] ∈ lines → trimLinesRight lines = none := by
  intro lines hmem
  induction lines with
  | nil => cases hmem
  | cons line rest ih =>
    rw [trimLinesRight]
    rcases List.mem_cons.mp hmem with hline | hrest
    · rw [← hline]
      rfl
    · cases htl : trim_cutset_right line [NEW_LINE_BYTE] with
      | none => rfl
      | some t => rw [ih hrest]

/-- Options used by the C10 scenario: defaults, no interim patterns. -/
def optionsPlain : OperationOptions := ⟨true, false, [], []⟩

/-- C10: whenever splitting a buffer on the linefeed byte yields an empty
segment, `process_output` hands an empty slice to `trim_cutset_right`,
whose `expect` panics (`none`), for any configuration, prompt replacement
and strip flag; and the panic is reachable through the public
`send_input_bytes`, as the closed second conjunct shows for a device whose
output ends in a linefeed. -/
theorem C10_process_output_panics (args : ChannelArgs)
    (replacePrompt : Bytes → Bytes) (b : Bytes) (strip : Bool)
    (h : [] ∈ splitOnByte NEW_LINE_BYTE b) :
    process_output args replacePrompt b strip = none ∧
    send_input_bytes argsR1 id [115] optionsPlain
      [[115], [111, 10, 82, 49, 35, 10]] = Except.error ChannelErr.panicked := by
  constructor
  · rw [process_output, trimLinesRight_none_of_mem_nil _ h]
  · rfl

/-- C10 witness: a buffer that is a lone linefeed splits into two empty
segments, so `process_output` panics on it. -/
theorem C10_witness_process_output_panics :
    process_output argsR1 id [10] true = none ∧
    send_input_bytes argsR1 id [115] optionsPlain
      [[115], [111, 10, 82, 49, 35, 10]] = Except.error ChannelErr.panicked :=
  C10_process_output_panics argsR1 id [10] true (by decide)

/-! ## `driver/generic/driver.rs` close -/

/-- An observable step of `Driver::close`; callbacks are identified by a
number (they are opaque function values whose only observable here is
*which* configured slot gets invoked). -/
inductive CloseEvent where
  | callback (id : Nat)
  | channelClosed
  deriving DecidableEq, Repr

/-- The generic driver args fields relevant to `close`. -/
structure GenericArgs where
  on_open : Option Nat
  on_close : Option Nat

/-- `Driver::close` from `driver/generic/driver.rs`: the source tests and
invokes `self.args.on_open` (not `on_close`), then closes the channel. -/
def generic_close_trace (args : GenericArgs) : List CloseEvent :=
  (match args.on_open with
   | some f => [CloseEvent.callback f]
   | none => []) ++ [CloseEvent.channelClosed]

/-- Modelled from the spec: `close` runs `on_close` then closes the
Channel (the documented intent of `Driver::close`). -/
def spec_close_trace (args : GenericArgs) : List CloseEvent :=
  (match args.on_close with
   | some f => [CloseEvent.callback f]
   | none => []) ++ [CloseEvent.channelClosed]

/-! ## Claim C2 -/

/-- C2: on a driver configured with distinct `on_open` (id 0) and
`on_close` (id 1) callbacks, `close` invokes the `on_open` slot and never
the `on_close` slot, diverging from the claimed behaviour. -/
theorem C2_close_invokes_on_open :
    generic_close_trace ⟨some 0, some 1⟩ =
      [CloseEvent.callback 0, CloseEvent.channelClosed] ∧
    spec_close_trace ⟨some 0, some 1⟩ =
      [CloseEvent.callback 1, CloseEvent.channelClosed] ∧
    generic_close_trace ⟨some 0, some 1⟩ ≠ spec_close_trace ⟨some 0, some 1⟩ := by
  refine ⟨rfl, rfl, ?_⟩
  decide

/-! ## `channel/send_interactive.rs` -/

/-- An interactive event; `response = none` models the empty response
string (which makes the code push the channel `prompt_pattern`), and
`response = some p` models a response string compiling to pattern `p`
(pattern-compilation failures are not exercised by the claims). -/
structure Event where
  input : Bytes
  response : Option Pattern
  hidden : Bool

/-- The echo-confirmation loop of `send_interactive`
(`_read_and_check_for_explicit`): the cumulative buffer `b` is extended
with the whole working buffer `rb` on *every* iteration where `rb` is
non-empty, exactly as the source does. -/
def echoExplicitLoop (input : Bytes) :
    List Bytes → Bytes → Bytes → Option (Bytes × List Bytes)
  | [], _, _ => none
  | nb :: rest, rb, b =>
    if nb.isEmpty then
      if rb.isEmpty then echoExplicitLoop input rest rb b
      else echoExplicitLoop input rest rb (b ++ rb)
    else
      let rb2 := rb ++ nb
      let b2 := b ++ rb2
      if is_sub rb2 input then some (b2, rest)
      else echoExplicitLoop input rest rb2 b2

/-- The any-prompt loop of `send_interactive`: `b.extend(rb)` runs on every
iteration, found or not. -/
def anyPromptLoopSI (args : ChannelArgs) (prompts : List Pattern) :
    List Bytes → Bytes → Bytes → Option (Bytes × List Bytes)
  | [], _, _ => none
  | nb :: rest, rb, b =>
    if nb.isEmpty then anyPromptLoopSI args prompts rest rb (b ++ rb)
    else
      let rb2 := rb ++ process_read_buf args nb
      let b2 := b ++ rb2
      if prompts.any (fun p => p rb2) then some (b2, rest)
      else anyPromptLoopSI args prompts rest rb2 b2

/-- The per-event body and loop of `Channel::send_interactive` over a
scripted transport, logging every transport write.  The source guards the
early-completion check with `idx < events.len()`, which always holds inside
the loop, so the check runs after every event; and it iterates over the
whole `prompts` list (the cloned `complete_patterns` *plus* the pushed
response/prompt pattern) when `complete_patterns` is non-empty. -/
def sendInteractiveGo (args : ChannelArgs) (options : OperationOptions) :
    List Event → List Bytes → Bytes → List Bytes →
    (Except ChannelErr Bytes) × List Bytes
  | [], _, b, writes => (Except.ok b, writes)
  | e :: restEvents, chunks, b, writes =>
    let prompts := options.complete_patterns ++
      [match e.response with
       | none => args.prompt_pattern
       | some p => p]
    let writes1 := writes ++ [e.input]
    match (if !e.input.isEmpty && !e.hidden
           then echoExplicitLoop e.input chunks [] b
           else some (b, chunks)) with
    | none => (Except.error ChannelErr.timeout, writes1)
    | some (b1, chunks1) =>
      let writes2 := writes1 ++ [args.return_char]
      match anyPromptLoopSI args prompts chunks1 [] b1 with
      | none => (Except.error ChannelErr.timeout, writes2)
      | some (b2, chunks2) =>
        if !options.complete_patterns.isEmpty && prompts.any (fun p => p b2) then
          (Except.ok b2, writes2)
        else sendInteractiveGo args options restEvents chunks2 b2 writes2

/-- `Channel::send_interactive` over a scripted transport. -/
def send_interactive (args : ChannelArgs) (options : OperationOptions)
    (events : List Event) (chunks : List Bytes) :
    (Except ChannelErr Bytes) × List Bytes :=
  sendInteractiveGo args options events chunks [] []

/-! ## Claim C5 -/

/-- A complete pattern that never matches. -/
def patternNever : Pattern := fun _ => false

/-- A response pattern matching any buffer holding byte `0x31`. -/
def patternDigitOne : Pattern := fun bs => is_sub bs [49]

/-- Options for the C5 scenario: `complete_patterns` supplied but never
matching. -/
def optionsComplete : OperationOptions := ⟨true, false, [], [patternNever]⟩

/-- First event: input `a`, response pattern `patternDigitOne`. -/
def eventA : Event := ⟨[97], some patternDigitOne, false⟩

/-- Second event: input `b`, default prompt response. -/
def eventB : Event := ⟨[98], none, false⟩

/-- C5: the claim says only a supplied `complete_patterns` match may
short-circuit, and never after the last event.  On this two-event dialog the
sole complete pattern never matches, yet after the *first* event the code
returns early because the per-event *response* pattern matches the
cumulative buffer: the result is the buffer after event one and the write
log holds only event one's input plus one return -- event two's input `b`
(0x62) is never written, contradicting the claim. -/
theorem C5_short_circuit_on_response_pattern :
    send_interactive argsR1 optionsComplete [eventA, eventB] [[97], [49]] =
      (Except.ok [97, 49], [[97], [10]]) ∧
    optionsComplete.complete_patterns.any (fun p => p [97, 49]) = false ∧
    eventB.input = [98] := by
  refine ⟨rfl, rfl, rfl⟩

/-! ## `channel/authenticate.rs` -/

/-- The loop of `read_until_any_prompt`: the `let rb = match result`
*inside* the loop body shadows the outer empty `rb`, so every
`_read_and_check_for_any_prompt` call receives an empty old buffer -- each
processed chunk is tested against the patterns alone and an unmatched
chunk is discarded rather than accumulated. -/
def read_until_any_go (args : ChannelArgs) (prompts : List Pattern) :
    List Bytes → Option (Bytes × List Bytes)
  | [] => none
  | nb :: rest =>
    if nb.isEmpty then read_until_any_go args prompts rest
    else
      let rb2 := process_read_buf args nb
      if prompts.any (fun p => p rb2) then some (rb2, rest)
      else read_until_any_go args prompts rest

/-- `Channel::read_until_any_prompt` over a scripted transport; returns the
matched (single-chunk) buffer and the unconsumed chunks, or `none` when the
script is exhausted (the real loop would poll forever). -/
def read_until_any_prompt (args : ChannelArgs) (prompts : List Pattern)
    (chunks : List Bytes) : Option (Bytes × List Bytes) :=
  read_until_any_go args prompts chunks

/-- Channel arguments plus the configured in-band auth patterns from
`channel/args.rs`. -/
structure AuthArgs where
  channel : ChannelArgs
  username_pattern : Pattern
  password_pattern : Pattern
  passphrase_pattern : Pattern

/-- How in-channel authentication fails. -/
inductive AuthErr where
  | userSeenMax
  | passwordSeenMax
  | passphraseSeenMax
  | deadline
  deriving DecidableEq, Repr

/-- The loop of `authenticate_telnet`; `dUser`/`dPass` are the compiled
`default_auth_username_pattern`/`default_auth_password_pattern` the source
matches against (distinct from the configured args patterns used inside
`read_until_any_prompt`).  Each successful read consumes at least one
scripted chunk, so `chunks.length + 1` iterations of fuel are exhaustive;
running out of fuel coincides with the script running out, i.e. the
deadline. -/
def authTelnetGo (a : AuthArgs) (dUser dPass : Pattern) (user password : Bytes) :
    Nat → List Bytes → Bytes → Nat → Nat → List Bytes →
    (Except AuthErr Bytes) × List Bytes
  | 0, _, _, _, _, writes => (Except.error AuthErr.deadline, writes)
  | fuel + 1, chunks, rb, userSeen, passSeen, writes =>
    match read_until_any_prompt a.channel
        [a.channel.prompt_pattern, a.username_pattern, a.password_pattern] chunks with
    | none => (Except.error AuthErr.deadline, writes)
    | some (nb, rest) =>
      if nb.isEmpty then
        authTelnetGo a dUser dPass user password fuel rest rb userSeen passSeen writes
      else
        let rb2 := rb ++ nb
        if a.channel.prompt_pattern rb2 then (Except.ok rb2, writes)
        else if dUser rb2 then
          if userSeen + 1 > USER_SEEN_MAX then (Except.error AuthErr.userSeenMax, writes)
          else authTelnetGo a dUser dPass user password fuel rest []
            (userSeen + 1) passSeen (writes ++ [user])
        else if dPass rb2 then
          if passSeen + 1 > PASSWORD_SEEN_MAX then
            (Except.error AuthErr.passwordSeenMax, writes)
          else authTelnetGo a dUser dPass user password fuel rest []
            userSeen (passSeen + 1) (writes ++ [password])
        else authTelnetGo a dUser dPass user password fuel rest rb2
          userSeen passSeen writes

/-- `Channel::authenticate_telnet` over a scripted transport; the write log
records each `write_and_return` payload. -/
def authenticate_telnet (a : AuthArgs) (dUser dPass : Pattern)
    (user password : Bytes) (chunks : List Bytes) :
    (Except AuthErr Bytes) × List Bytes :=
  authTelnetGo a dUser dPass user password (chunks.length + 1) chunks [] 0 0 []

/-- The loop of `authenticate_ssh`, analogous to `authTelnetGo` with
password and passphrase prompts. -/
def authSshGo (a : AuthArgs) (dPass dPhrase : Pattern) (password passphrase : Bytes) :
    Nat → List Bytes → Bytes → Nat → Nat → List Bytes →
    (Except AuthErr Bytes) × List Bytes
  | 0, _, _, _, _, writes => (Except.error AuthErr.deadline, writes)
  | fuel + 1, chunks, rb, passSeen, phraseSeen, writes =>
    match read_until_any_prompt a.channel
        [a.channel.prompt_pattern, a.password_pattern, a.passphrase_pattern] chunks with
    | none => (Except.error AuthErr.deadline, writes)
    | some (nb, rest) =>
      if nb.isEmpty then
        authSshGo a dPass dPhrase password passphrase fuel rest rb passSeen phraseSeen writes
      else
        let rb2 := rb ++ nb
        if a.channel.prompt_pattern rb2 then (Except.ok rb2, writes)
        else if dPass rb2 then
          if passSeen + 1 > PASSWORD_SEEN_MAX then
            (Except.error AuthErr.passwordSeenMax, writes)
          else authSshGo a dPass dPhrase password passphrase fuel rest []
            (passSeen + 1) phraseSeen (writes ++ [password])
        else if dPhrase rb2 then
          if phraseSeen + 1 > PASSPHRASE_SEEN_MAX then
            (Except.error AuthErr.passphraseSeenMax, writes)
          else authSshGo a dPass dPhrase password passphrase fuel rest []
            passSeen (phraseSeen + 1) (writes ++ [passphrase])
        else authSshGo a dPass dPhrase password passphrase fuel rest rb2
          passSeen phraseSeen writes

/-- `Channel::authenticate_ssh` over a scripted transport. -/
def authenticate_ssh (a : AuthArgs) (dPass dPhrase : Pattern)
    (password passphrase : Bytes) (chunks : List Bytes) :
    (Except AuthErr Bytes) × List Bytes :=
  authSshGo a dPass dPhrase password passphrase (chunks.length + 1) chunks [] 0 0 []

/-! ## Claim C6 -/

/-- Pattern matching a buffer containing `#`. -/
def patternHash : Pattern := fun rb => is_sub rb [35]

/-- Pattern matching a buffer containing `Username:`. -/
def patternUserPrompt : Pattern :=
  fun rb => is_sub rb [85, 115, 101, 114, 110, 97, 109, 101, 58]

/-- Pattern matching a buffer containing `Password:`. -/
def patternPassPrompt : Pattern :=
  fun rb => is_sub rb [80, 97, 115, 115, 119, 111, 114, 100, 58]

/-- Pattern matching a buffer containing `passphrase`. -/
def patternPhrasePrompt : Pattern :=
  fun rb => is_sub rb [112, 97, 115, 115, 112, 104, 114, 97, 115, 101]

/-- The auth configuration for the C6 scenario. -/
def authArgs : AuthArgs :=
  ⟨⟨patternHash, [NEW_LINE_BYTE], 1024⟩, patternUserPrompt, patternPassPrompt,
    patternPhrasePrompt⟩

/-- The bytes of `Password: `. -/
def passwordChunk : Bytes := [80, 97, 115, 115, 119, 111, 114, 100, 58, 32]

/-- C6: on a transport whose reads yield `Password: ` three times, both
auth scripts fail with the password-prompt-seen-multiple-times error
(`PASSWORD_SEEN_MAX = 2`) and have written the password exactly twice --
the third sighting errors out before a third write, for any credentials. -/
theorem C6_password_seen_bounded (user password passphrase : Bytes) :
    authenticate_telnet authArgs patternUserPrompt patternPassPrompt user password
      [passwordChunk, passwordChunk, passwordChunk] =
      (Except.error AuthErr.passwordSeenMax, [password, password]) ∧
    authenticate_ssh authArgs patternPassPrompt patternPhrasePrompt password passphrase
      [passwordChunk, passwordChunk, passwordChunk] =
      (Except.error AuthErr.passwordSeenMax, [password, password]) :=
  ⟨rfl, rfl⟩

/-! ## `driver/network/driver.rs` -/

/-- `string_contains_any_substring` from `util/strings.rs`: true when any
string of the vec occurs contiguously in `s` (it calls
`is_sub(s, ss)`). -/
def string_contains_any_substring (s : Bytes) : List Bytes → Bool
  | [] => false
  | ss :: rest => if is_sub s ss then true else string_contains_any_substring s rest

/-- A privilege level from `driver/network/driver.rs`.  Names stay
`String`; the prompt-classification regex is a byte-predicate and
`not_contains` strings are byte lists. -/
structure PrivilegeLevel where
  name : String
  pattern : Pattern
  not_contains : List Bytes
  previous_privilege_level : String
  de_escalate : Bytes
  escalate : Bytes
  escalate_auth : Bool
  escalate_prompt : Bytes

/-- How `determine_current_privilege_level` fails. -/
inductive DetErr where
  | noMatchingLevel
  | multipleMatchingLevels
  deriving DecidableEq, Repr

/-- The accumulation loop of `determine_current_privilege_level`: skip a
level when any `not_contains` string occurs in the prompt, collect its name
when its pattern matches. -/
def possibleCurrentLevels : List PrivilegeLevel → Bytes → List String
  | [], _ => []
  | pl :: rest, prompt =>
    if string_contains_any_substring prompt pl.not_contains then
      possibleCurrentLevels rest prompt
    else if pl.pattern prompt then pl.name :: possibleCurrentLevels rest prompt
    else possibleCurrentLevels rest prompt

/-- `determine_current_privilege_level`: exactly one collected name
succeeds; zero or several is an error. -/
def determine_current_privilege_level (levels : List PrivilegeLevel)
    (prompt : Bytes) : Except DetErr String :=
  match possibleCurrentLevels levels prompt with
  | [nm] => Except.ok nm
  | [] => Except.error DetErr.noMatchingLevel
  | _ => Except.error DetErr.multipleMatchingLevels

/-- Specification-side selection for C7: every level whose pattern matches
the prompt and none of whose `not_contains` substrings occur in it. -/
def selectedLevels (levels : List PrivilegeLevel) (prompt : Bytes) :
    List PrivilegeLevel :=
  levels.filter (fun pl =>
    !string_contains_any_substring prompt pl.not_contains && pl.pattern prompt)

theorem possibleCurrentLevels_eq_selected (levels : List PrivilegeLevel)
    (prompt : Bytes) :
    possibleCurrentLevels levels prompt =
      (selectedLevels levels prompt).map (fun pl => pl.name) := by
  induction levels with
  | nil => rfl
  | cons pl rest ih =>
    rw [possibleCurrentLevels, selectedLevels, List.filter_cons]
    by_cases hnc : string_contains_any_substring prompt pl.not_contains
    · simp [hnc, ih, selectedLevels]
    · by_cases hpat : pl.pattern prompt
      · simp [hnc, hpat, ih, selectedLevels]
      · simp [hnc, hpat, ih, selectedLevels]

/-! ## Claim C7 -/

/-- C7: `determine_current_privilege_level` returns a name exactly when the
selected levels (pattern matches, no `not_contains` hit) are that single
level, and errors exactly when zero or more than one level is selected. -/
theorem C7_determine_current_level (levels : List PrivilegeLevel)
    (prompt : Bytes) :
    (∀ nm, determine_current_privilege_level levels prompt = Except.ok nm ↔
      (selectedLevels levels prompt).map (fun pl => pl.name) = [nm]) ∧
    ((determine_current_privilege_level levels prompt).isOk = false ↔
      (selectedLevels levels prompt).length ≠ 1) := by
  have hsel := possibleCurrentLevels_eq_selected levels prompt
  constructor
  · intro nm
    rw [determine_current_privilege_level, hsel]
    cases hs : (selectedLevels levels prompt).map (fun pl => pl.name) with
    | nil => simp
    | cons a tl =>
      cases tl with
      | nil => simp
      | cons b tl2 => simp
  · rw [determine_current_privilege_level, hsel]
    have hlen : (selectedLevels levels prompt).length =
        ((selectedLevels levels prompt).map (fun pl => pl.name)).length := by
      rw [List.length_map]
    rw [hlen]
    cases hs : (selectedLevels levels prompt).map (fun pl => pl.name) with
    | nil => simp [Except.isOk, Except.toBool]
    | cons a tl =>
      cases tl with
      | nil => simp [Except.isOk, Except.toBool]
      | cons b tl2 => simp [Except.isOk, Except.toBool]

/-! ## Privilege graph and `acquire_privilege_level`

`build_privilege_level_graph` stores, for every level name, its non-empty
`previous` level, then mirrors every edge.  The Rust `HashMap` iteration
order is unspecified; the model fixes the source-list order, which is one
admissible order. -/

/-- Key membership in the built graph: every level name gets a key, and the
mirroring pass adds a key for every non-empty `previous` name. -/
def graph_contains_key (levels : List PrivilegeLevel) (key : String) : Bool :=
  levels.any (fun pl => pl.name == key) ||
    levels.any (fun pl =>
      pl.previous_privilege_level == key && !(pl.previous_privilege_level == ""))

/-- Neighbours of a node in the built graph: its own non-empty `previous`,
plus every level that names it as `previous` (the mirrored edges). -/
def graph_neighbors (levels : List PrivilegeLevel) (n : String) : List String :=
  (match levels.find? (fun pl => pl.name == n) with
   | some pl =>
     if pl.previous_privilege_level == "" then []
     else [pl.previous_privilege_level]
   | none => []) ++
  (if n == "" then []
   else (levels.filter (fun pl => pl.previous_privilege_level == n)).map
     (fun pl => pl.name))

/-- `build_privilege_change_map`: depth-first search for `target` keeping
the visited path in `working_steps`; an empty result means unreachable.
The recursion is paced by `fuel`; the search depth is bounded by the number
of distinct names in the graph, so callers pass `2 * levels.length + 2`
which cannot be exhausted.  The neighbour fold keeps the first non-empty
result, mirroring the source's early `return`. -/
def build_privilege_change_map (levels : List PrivilegeLevel) (target : String) :
    Nat → String → List String → List String
  | 0, _, _ => []
  | fuel + 1, current, steps =>
    let working := steps ++ [current]
    if current == target then working
    else
      (graph_neighbors levels current).foldl
        (fun acc p =>
          if !acc.isEmpty then acc
          else if working.contains p then []
          else build_privilege_change_map levels target fuel p working)
        []

/-- The actions `acquire_privilege_level` can decide on
(`PrivilegeAction` in the source). -/
inductive PrivilegeAction where
  | noOp
  | escalate (nm : String)
  | deescalate (nm : String)
  deriving DecidableEq, Repr

/-- How one planning step fails. -/
inductive StepErr where
  | determine (e : DetErr)
  | noPathToTarget
  | indexPanic
  | noActionFound
  deriving DecidableEq, Repr

/-- `process_acquire_privilege_level`: classify the prompt, stop on the
target, otherwise plan a path and pick escalate/de-escalate by whether the
next hop's `previous` is the current level. -/
def process_acquire_privilege_level (levels : List PrivilegeLevel)
    (target : String) (prompt : Bytes) : Except StepErr PrivilegeAction :=
  match determine_current_privilege_level levels prompt with
  | Except.error e => Except.error (StepErr.determine e)
  | Except.ok current =>
    if current == target then Except.ok PrivilegeAction.noOp
    else
      let pmap := build_privilege_change_map levels target
        (2 * levels.length + 2) current []
      if pmap.isEmpty then Except.error StepErr.noPathToTarget
      else
        match pmap[1]? with
        | none => Except.error StepErr.indexPanic
        | some next =>
          match levels.find? (fun pl => pl.name == next) with
          | none => Except.error StepErr.noActionFound
          | some pl =>
            if pl.previous_privilege_level == current then
              Except.ok (PrivilegeAction.escalate pl.name)
            else Except.ok (PrivilegeAction.deescalate current)

/-- How `acquire_privilege_level` fails. -/
inductive AcqErr where
  | invalidTargetLevel
  | promptExhausted
  | step (e : StepErr)
  | failedToAcquire
  deriving DecidableEq, Repr

/-- The loop of `acquire_privilege_level` over scripted `get_prompt`
results.  Each iteration classifies one prompt; a non-NoOp action is
performed (logged) and `action_count` is bumped, erroring once the count
exceeds `2 * levels.length` -- `remaining` holds the cap minus the count.
The escalate/de-escalate channel dialogs themselves are abstracted as
succeeding (the device simply never changes level in the scenarios). -/
def acquireLoop (levels : List PrivilegeLevel) (target : String) :
    List Bytes → Nat → Except AcqErr Unit × List PrivilegeAction
  | [], _ => (Except.error AcqErr.promptExhausted, [])
  | prompt :: restPrompts, remaining =>
    match process_acquire_privilege_level levels target prompt with
    | Except.error e => (Except.error (AcqErr.step e), [])
    | Except.ok PrivilegeAction.noOp => (Except.ok (), [])
    | Except.ok act =>
      match remaining with
      | 0 => (Except.error AcqErr.failedToAcquire, [act])
      | remaining + 1 =>
        let r := acquireLoop levels target restPrompts remaining
        (r.1, act :: r.2)

/-- `acquire_privilege_level`: reject unknown targets, then loop with the
action cap `2 * levels.length`. -/
def acquire_privilege_level (levels : List PrivilegeLevel) (target : String)
    (prompts : List Bytes) : Except AcqErr Unit × List PrivilegeAction :=
  if !(graph_contains_key levels target) then
    (Except.error AcqErr.invalidTargetLevel, [])
  else acquireLoop levels target prompts (2 * levels.length)

theorem acquireLoop_length (levels : List PrivilegeLevel) (target : String) :
    ∀ (prompts : List Bytes) (remaining : Nat),
      (acquireLoop levels target prompts remaining).2.length ≤ remaining + 1 ∧
      ((acquireLoop levels target prompts remaining).1 =
          Except.error AcqErr.failedToAcquire →
        (acquireLoop levels target prompts remaining).2.length = remaining + 1) := by
  intro prompts
  induction prompts with
  | nil =>
    intro remaining
    constructor
    · simp [acquireLoop]
    · intro h
      rw [acquireLoop] at h
      simp at h
  | cons prompt rest ih =>
    intro remaining
    cases hpa : process_acquire_privilege_level levels target prompt with
    | error e =>
      constructor
      · simp [acquireLoop, hpa]
      · intro h
        rw [acquireLoop] at h
        simp [hpa] at h
    | ok act =>
      cases act with
      | noOp =>
        constructor
        · simp [acquireLoop, hpa]
        · intro h
          rw [acquireLoop] at h
          simp [hpa] at h
      | escalate nm =>
        cases remaining with
        | zero =>
          constructor
          · simp [acquireLoop, hpa]
          · intro _
            simp [acquireLoop, hpa]
        | succ r =>
          obtain ⟨hle, heq⟩ := ih r
          constructor
          · have : (acquireLoop levels target (prompt :: rest) (r + 1)).2 =
                PrivilegeAction.escalate nm :: (acquireLoop levels target rest r).2 := by
              rw [acquireLoop, hpa]
            rw [this]
            simpa using Nat.succ_le_succ hle
          · intro h
            have h1 : (acquireLoop levels target (prompt :: rest) (r + 1)).1 =
                (acquireLoop levels target rest r).1 := by
              rw [acquireLoop, hpa]
            have h2 : (acquireLoop levels target (prompt :: rest) (r + 1)).2 =
                PrivilegeAction.escalate nm :: (acquireLoop levels target rest r).2 := by
              rw [acquireLoop, hpa]
            rw [h1] at h
            rw [h2, List.length_cons, heq h]
      | deescalate nm =>
        cases remaining with
        | zero =>
          constructor
          · simp [acquireLoop, hpa]
          · intro _
            simp [acquireLoop, hpa]
        | succ r =>
          obtain ⟨hle, heq⟩ := ih r
          constructor
          · have : (acquireLoop levels target (prompt :: rest) (r + 1)).2 =
                PrivilegeAction.deescalate nm :: (acquireLoop levels target rest r).2 := by
              rw [acquireLoop, hpa]
            rw [this]
            simpa using Nat.succ_le_succ hle
          · intro h
            have h1 : (acquireLoop levels target (prompt :: rest) (r + 1)).1 =
                (acquireLoop levels target rest r).1 := by
              rw [acquireLoop, hpa]
            have h2 : (acquireLoop levels target (prompt :: rest) (r + 1)).2 =
                PrivilegeAction.deescalate nm :: (acquireLoop levels target rest r).2 := by
              rw [acquireLoop, hpa]
            rw [h1] at h
            rw [h2, List.length_cons, heq h]

/-! ## Claim C4 -/

/-- The `exec` level of the C4 scenario: prompt `R1>`, no previous. -/
def execLevel : PrivilegeLevel :=
  ⟨"exec", (fun bs => is_sub bs [82, 49, 62]), [], "", [101, 110, 100],
    [], false, []⟩

/-- The `privileged` level of the C4 scenario: prompt `R1#`, previous
`exec`, escalated by `enable` without auth. -/
def privilegedLevel : PrivilegeLevel :=
  ⟨"privileged", (fun bs => is_sub bs [82, 49, 35]), [], "exec",
    [100, 105, 115, 97, 98, 108, 101], [101, 110, 97, 98, 108, 101], false, []⟩

/-- The two-level platform of the C4 scenario. -/
def levelsTwo : List PrivilegeLevel := [execLevel, privilegedLevel]

/-- C4 counterexample: with two levels (cap `2 × 2 = 4`) and a device that
answers `R1>` to every `get_prompt` (each escalate is ignored), the loop
performs *five* escalate actions before failing with the
failed-to-acquire error -- one more than the claimed cap. -/
theorem C4_cap_exceeded_by_one :
    acquire_privilege_level levelsTwo "privileged"
        [[82, 49, 62], [82, 49, 62], [82, 49, 62], [82, 49, 62], [82, 49, 62]] =
      (Except.error AcqErr.failedToAcquire,
        List.replicate 5 (PrivilegeAction.escalate "privileged")) ∧
    2 * levelsTwo.length = 4 := ⟨rfl, rfl⟩

/-- C4 (amended): `acquire_privilege_level` performs at most
`2 × |levels| + 1` escalate/de-escalate actions, and whenever it fails with
the failed-to-acquire error it has performed exactly `2 × |levels| + 1`
actions -- the cap check runs only *after* the action of each
iteration. -/
theorem C4_acquire_action_cap (levels : List PrivilegeLevel) (target : String)
    (prompts : List Bytes) :
    (acquire_privilege_level levels target prompts).2.length ≤
      2 * levels.length + 1 ∧
    ((acquire_privilege_level levels target prompts).1 =
        Except.error AcqErr.failedToAcquire →
      (acquire_privilege_level levels target prompts).2.length =
        2 * levels.length + 1) := by
  rw [acquire_privilege_level]
  by_cases hk : graph_contains_key levels target
  · simp only [hk]
    simpa using acquireLoop_length levels target prompts (2 * levels.length)
  · simp only [Bool.not_eq_true] at hk
    simp [hk]

/-- C4 witness: the amended bound applied to the concrete runaway scenario,
with the failed-to-acquire implication discharged. -/
theorem C4_witness_acquire_action_cap :
    (acquire_privilege_level levelsTwo "privileged"
        [[82, 49, 62], [82, 49, 62], [82, 49, 62], [82, 49, 62], [82, 49, 62]]).2.length =
      2 * levelsTwo.length + 1 :=
  (C4_acquire_action_cap levelsTwo "privileged"
    [[82, 49, 62], [82, 49, 62], [82, 49, 62], [82, 49, 62], [82, 49, 62]]).2 rfl

end Scraplirs
